import Mathlib

/-
Verification of the schema-flattening core of mcp-server-axiom-js
(src/helpers/convertToSchemaJSON.js).

The JavaScript source is shallowly embedded as follows.

* A raw field descriptor (an arbitrary JSON object reaching the zod
  validator) is a record of optional primitive values; the embedding keeps
  exactly the primitives the validator distinguishes (string, boolean,
  number).
* zod validation (fieldSchema / fieldsSchema.parse) becomes a total
  function into Except: z.string() accepts every string including the
  empty one, optional fields are defaulted when absent and rejected when
  present with the wrong primitive type, and the array parse fails as a
  whole when any element fails.  zod aggregates all issues into one
  thrown ZodError; the embedding returns the first issue, which is
  equivalent for the ok/error observations used here.
* The nested plain object built by convertSchemaToJSON becomes the
  inductive Node: a key maps to a terminal type string or to a nested
  object.  Objects are modelled by their own enumerable string-keyed
  properties, kept as an association list in property-creation order
  (JavaScript assignment to a fresh key appends it; assignment to an
  existing key keeps its position).  A member read with no own property
  consults Object.prototype: the standard inherited names (protoKeys
  below) read as truthy built-ins, which the insertion loop's truthiness
  and typeof tests then treat exactly as the source does, so descriptors
  whose path uses such a segment store nothing in the tree.  The model
  assumes the standard, unpolluted Object.prototype (no earlier write
  through a __proto__ segment has added properties to it).
* The insertion loop keeps a cursor that can escape the tree: once it
  reaches a terminal string, every later property write of the descriptor
  is a silent no-op on a primitive (non-strict mode) or lands on a fresh
  object unreachable from the tree, so the embedding returns the node
  unchanged in that situation.
* Object.entries enumerates array-index keys (canonical decimal integers
  below 2^32 - 1) first, in ascending numeric order, and all remaining
  keys in creation order; getStringifiedSchema renders entries in that
  enumeration order.  Because each line of output depends only on its own
  entry, the embedding renders entries in storage order and permutes the
  rendered (key, line) pairs, which yields the same list of lines.
-/

/-- A JavaScript primitive value as distinguished by the zod validator. -/
inductive JSVal where
  | vstr : String → JSVal
  | vbool : Bool → JSVal
  | vnum : Int → JSVal
deriving DecidableEq

/-- A raw input object for fieldsSchema.parse: each recognised key is
either absent or holds some primitive value.  Unknown extra keys are
ignored by zod and hence not represented. -/
structure RawField where
  name : Option JSVal
  type : Option JSVal
  unit : Option JSVal
  hidden : Option JSVal
  description : Option JSVal
deriving DecidableEq

/-- A fully validated and defaulted field descriptor. -/
structure FieldDesc where
  name : String
  type : String
  unit : String
  hidden : Bool
  description : String
deriving DecidableEq

/-- z.string(): accepts any string (also the empty one), rejects a missing
or non-string value. -/
def parseRequiredString (label : String) : Option JSVal → Except String String
  | some (JSVal.vstr s) => Except.ok s
  | some _ => Except.error (label ++ ": Expected string")
  | none => Except.error (label ++ ": Required")

/-- z.string().optional().default(d): defaults when absent, accepts any
string, rejects another primitive. -/
def parseOptionalString (label d : String) : Option JSVal → Except String String
  | none => Except.ok d
  | some (JSVal.vstr s) => Except.ok s
  | some _ => Except.error (label ++ ": Expected string")

/-- z.boolean().optional().default(d). -/
def parseOptionalBool (label : String) (d : Bool) : Option JSVal → Except String Bool
  | none => Except.ok d
  | some (JSVal.vbool b) => Except.ok b
  | some _ => Except.error (label ++ ": Expected boolean")

/-- fieldSchema.parse on one raw object. -/
def parseField (r : RawField) : Except String FieldDesc :=
  match parseRequiredString "name" r.name with
  | Except.error e => Except.error e
  | Except.ok n =>
    match parseOptionalString "type" "any" r.type with
    | Except.error e => Except.error e
    | Except.ok t =>
      match parseOptionalString "unit" "" r.unit with
      | Except.error e => Except.error e
      | Except.ok u =>
        match parseOptionalBool "hidden" false r.hidden with
        | Except.error e => Except.error e
        | Except.ok hb =>
          match parseOptionalString "description" "" r.description with
          | Except.error e => Except.error e
          | Except.ok d =>
            Except.ok { name := n, type := t, unit := u, hidden := hb, description := d }

/-- fieldsSchema.parse: the whole array validates or the whole call
fails; no partial list of validated fields is ever produced. -/
def parseFields : List RawField → Except String (List FieldDesc)
  | [] => Except.ok []
  | r :: rs =>
    match parseField r, parseFields rs with
    | Except.ok f, Except.ok fs => Except.ok (f :: fs)
    | Except.error e, _ => Except.error e
    | _, Except.error e => Except.error e

/-- The SchemaTree node: a value stored under a key of the defs object is
either a terminal type string or a nested object, modelled by its
enumerable own properties in creation order. -/
inductive Node where
  | leaf : String → Node
  | branch : List (String × Node) → Node

/-- Own-property read on a plain object (shadowing part of the member
access current[key]; the prototype-inherited part is handled in insertGo
through isProtoKey below). -/
def lookupKey : List (String × Node) → String → Option Node
  | [], _ => none
  | (k2, v) :: es, k => if k2 = k then some v else lookupKey es k

/-- The own-property names of the standard Object.prototype.  When a plain
object has no own property under a key, the member access current[key]
consults Object.prototype and every name listed here yields a truthy
inherited value: a built-in function (typeof "function") for all of them
except __proto__, whose inherited accessor yields Object.prototype itself
(typeof "object"). -/
def protoKeys : List String :=
  ["constructor", "hasOwnProperty", "isPrototypeOf", "propertyIsEnumerable",
   "toLocaleString", "toString", "valueOf", "__proto__",
   "__defineGetter__", "__defineSetter__", "__lookupGetter__", "__lookupSetter__"]

/-- Whether a key with no own property still reads as a truthy inherited
value from the (unpolluted) standard Object.prototype. -/
def isProtoKey (k : String) : Bool := protoKeys.contains k

/-- Property write current[key] = v: an existing key keeps its position,
a fresh key is appended (JavaScript property-creation order). -/
def setKey : List (String × Node) → String → Node → List (String × Node)
  | [], k, v => [(k, v)]
  | (k2, v2) :: es, k, v => if k2 = k then (k, v) :: es else (k2, v2) :: setKey es k v

/-- One descriptor's insertion walk (the path.forEach loop of
convertSchemaToJSON), as a function of the remaining path segments.

The member read current[key] yields the own property when one exists,
otherwise the inherited Object.prototype value for the names in
protoKeys, otherwise undefined.  The !current[key] test is falsy exactly
for an undefined read or an own empty terminal string; a non-empty
terminal, any object and every inherited prototype value are truthy.

For the last segment the assignment happens when the read is falsy or an
object: an absent ordinary key or an own empty string gets the type, an
own nested mapping is overwritten with the type, an own truthy terminal
is left alone.  An inherited built-in function is truthy and typeof
"function", so both branches are skipped and nothing is stored; for
__proto__ the inherited value is an object, so the assignment
current.__proto__ = type fires, but the inherited setter ignores a
string right-hand side, creating no own property — the tree is unchanged
either way.

For an intermediate segment a falsy read initialises a fresh empty
object at the key and the walk descends; a truthy own object is
descended into; any other truthy read makes the cursor leave the tree —
an own terminal string puts it on a primitive (later writes are silent
no-ops in non-strict mode or land on a detached object), an inherited
function puts it on a global built-in, and __proto__ puts it on
Object.prototype itself (later writes pollute the global prototype) —
in every such case nothing reachable from the tree changes, so the node
is returned unchanged.  The embedding models runs against the standard,
unpolluted Object.prototype. -/
def insertGo : List String → String → Node → Node
  | _, _, Node.leaf s => Node.leaf s
  | [], _, n => n
  | [k], ty, Node.branch es =>
    match lookupKey es k with
    | none =>
      if isProtoKey k then Node.branch es else Node.branch (setKey es k (Node.leaf ty))
    | some (Node.leaf s) =>
      if s = "" then Node.branch (setKey es k (Node.leaf ty)) else Node.branch es
    | some (Node.branch _) => Node.branch (setKey es k (Node.leaf ty))
  | k :: k2 :: p, ty, Node.branch es =>
    match lookupKey es k with
    | none =>
      if isProtoKey k then Node.branch es
      else Node.branch (setKey es k (insertGo (k2 :: p) ty (Node.branch [])))
    | some (Node.leaf s) =>
      if s = "" then Node.branch (setKey es k (insertGo (k2 :: p) ty (Node.branch [])))
      else Node.branch es
    | some (Node.branch bs) => Node.branch (setKey es k (insertGo (k2 :: p) ty (Node.branch bs)))

/-- String.prototype.split with the one-character separator ".": every
occurrence splits, adjacent dots and boundary dots give empty segments,
and the empty string gives one empty segment. -/
def splitSegs : List Char → List (List Char)
  | [] => [[]]
  | c :: cs =>
    if c = '.' then [] :: splitSegs cs
    else
      match splitSegs cs with
      | [] => [[c]]
      | seg :: segs => (c :: seg) :: segs

/-- field.name.split("."). -/
def splitName (s : String) : List String :=
  (splitSegs s.data).map (fun cs => String.mk cs)

/-- field.type || "any": the empty string is falsy. -/
def jsTypeOr (t : String) : String := if t = "" then "any" else t

/-- Insertion of one validated descriptor into the defs tree. -/
def insertField (t : Node) (f : FieldDesc) : Node :=
  insertGo (splitName f.name) (jsTypeOr f.type) t

/-- The tree built by the validatedFields.forEach loop, in input order,
starting from the fresh empty object defs = \x7b\x7d. -/
def buildDefs (fs : List FieldDesc) : Node :=
  fs.foldl insertField (Node.branch [])

/-- convertSchemaToJSON: validate the whole batch, then build the tree.
A validation failure is the thrown ZodError; no tree is produced. -/
def convertSchemaToJSON (fields : List RawField) : Except String Node :=
  match parseFields fields with
  | Except.error e => Except.error e
  | Except.ok fs => Except.ok (buildDefs fs)

/-- The walk of the finished tree along a path (observer used in the
statements; not part of the source). -/
def lookupPath : Node → List String → Option Node
  | n, [] => some n
  | Node.leaf _, _ :: _ => none
  | Node.branch es, k :: p =>
    match lookupKey es k with
    | none => none
    | some c => lookupPath c p

/-- The terminal type string stored at a path, when the path holds one
(observer used in the statements; not part of the source). -/
def terminalAt (n : Node) (p : List String) : Option String :=
  match lookupPath n p with
  | some (Node.leaf s) => some s
  | _ => none

/-- " ".repeat(indent). -/
def nspaces (n : Nat) : String := String.mk (List.replicate n ' ')

/-- Numeric value of a digit string (used for the array-index ordering of
Object.entries). -/
def keyToNat (cs : List Char) : Nat :=
  cs.foldl (fun n c => n * 10 + (c.toNat - 48)) 0

/-- The ECMAScript array-index test for a property key: the canonical
decimal representation (digits only, no leading zero except "0" itself)
of an integer below 2^32 - 1. -/
def isArrayIndexKey (s : String) : Bool :=
  match s.data with
  | [] => false
  | c :: cs =>
    (c :: cs).all Char.isDigit && (cs.isEmpty || c != '0') && keyToNat (c :: cs) < 4294967295

/-- Insertion into a list kept sorted by ascending numeric key value. -/
def insertByKey (p : String × String) : List (String × String) → List (String × String)
  | [] => [p]
  | q :: qs =>
    if keyToNat p.1.data ≤ keyToNat q.1.data then p :: q :: qs else q :: insertByKey p qs

/-- Object.entries enumeration order applied to rendered (key, line)
pairs: array-index keys first in ascending numeric order, then the
remaining keys in property-creation order. -/
def jsOrder (es : List (String × String)) : List String :=
  ((es.filter (fun e => isArrayIndexKey e.1)).foldr insertByKey []).map Prod.snd
    ++ (es.filter (fun e => !isArrayIndexKey e.1)).map Prod.snd

/-- The entries.map body of getStringifiedSchema, applied to each entry in
storage order and keeping the key for the later enumeration permutation:
a terminal entry renders as one line, a nested entry embeds the
recursively rendered sub-block at indent + 2. -/
def renderEntries : List (String × Node) → Nat → List (String × String)
  | [], _ => []
  | (k, Node.leaf s) :: es, ind =>
    (k, nspaces ind ++ k ++ ": " ++ s ++ ";") :: renderEntries es ind
  | (k, Node.branch bs) :: es, ind =>
    (k, nspaces ind ++ k ++ ": " ++
        ("\x7b\n" ++ String.intercalate "\n" (jsOrder (renderEntries bs (ind + 2))) ++ "\n"
          ++ nspaces ind ++ "\x7d") ++ ";")
      :: renderEntries es ind

/-- getStringifiedSchema(defs, indent): the brace-delimited block with one
line per enumerated entry and the closing brace indented two spaces less
than the entries.  The nested sub-block inlined in renderEntries is
definitionally this function at indent + 2. -/
def getStringifiedSchema (defs : List (String × Node)) (indent : Nat) : String :=
  "\x7b\n" ++ String.intercalate "\n" (jsOrder (renderEntries defs indent)) ++ "\n"
    ++ nspaces (indent - 2) ++ "\x7d"

/-- Raw descriptors of the spec §8.2 single-level example. -/
def rawSingleLevel : List RawField :=
  [⟨some (JSVal.vstr "status"), some (JSVal.vstr "int"), none, none, none⟩,
   ⟨some (JSVal.vstr "message"), some (JSVal.vstr "string"), none, none, none⟩]

/-- Raw descriptors of the spec §8.3 nested example. -/
def rawNested : List RawField :=
  [⟨some (JSVal.vstr "request.method"), some (JSVal.vstr "string"), none, none, none⟩,
   ⟨some (JSVal.vstr "request.duration"), some (JSVal.vstr "int64"), none, none, none⟩]

/-- Raw descriptors of the exact-path collision example of §8.4. -/
def rawCollision : List RawField :=
  [⟨some (JSVal.vstr "a"), some (JSVal.vstr "string"), none, none, none⟩,
   ⟨some (JSVal.vstr "a"), some (JSVal.vstr "int"), none, none, none⟩]

/-- Raw descriptors with two array-index names inserted in descending
numeric order. -/
def rawNumericKeys : List RawField :=
  [⟨some (JSVal.vstr "2"), some (JSVal.vstr "int"), none, none, none⟩,
   ⟨some (JSVal.vstr "1"), some (JSVal.vstr "string"), none, none, none⟩]

/-- Raw descriptors of the scalar-then-deeper example: a terminal at "a"
followed by the longer path "a.b". -/
def rawScalarThenDeeper : List RawField :=
  [⟨some (JSVal.vstr "a"), some (JSVal.vstr "int"), none, none, none⟩,
   ⟨some (JSVal.vstr "a.b"), some (JSVal.vstr "string"), none, none, none⟩]

/-- A raw descriptor whose hidden key holds a string instead of a
boolean. -/
def rawBadHidden : RawField :=
  ⟨some (JSVal.vstr "a"), none, none, some (JSVal.vstr "yes"), none⟩

theorem lookupKey_setKey_self (es : List (String × Node)) (k : String) (v : Node) :
    lookupKey (setKey es k v) k = some v := by
  induction es with
  | nil => simp [setKey, lookupKey]
  | cons e es ih =>
    obtain ⟨k2, v2⟩ := e
    by_cases h : k2 = k
    · simp [setKey, h, lookupKey]
    · simp [setKey, h, lookupKey, ih]

theorem setKey_eq_of_lookupKey (es : List (String × Node)) (k : String) (v : Node)
    (h : lookupKey es k = some v) : setKey es k v = es := by
  induction es with
  | nil => simp [lookupKey] at h
  | cons e es ih =>
    obtain ⟨k2, v2⟩ := e
    by_cases hk : k2 = k
    · subst hk
      simp [lookupKey] at h
      simp [setKey, h]
    · simp [lookupKey, hk] at h
      simp [setKey, hk, ih h]

theorem insertGo_leaf (p : List String) (ty s : String) :
    insertGo p ty (Node.leaf s) = Node.leaf s := by
  cases p with
  | nil => rfl
  | cons k t => cases t <;> rfl

theorem splitSegs_ne_nil (cs : List Char) : splitSegs cs ≠ [] := by
  induction cs with
  | nil => simp [splitSegs]
  | cons c cs ih =>
    by_cases h : c = '.'
    · simp [splitSegs, h]
    · cases hs : splitSegs cs with
      | nil => exact absurd hs ih
      | cons seg segs => simp [splitSegs, h, hs]

theorem splitName_ne_nil (s : String) : splitName s ≠ [] := by
  intro h
  exact splitSegs_ne_nil s.data (by simpa [splitName] using h)

theorem insertGo_noop_of_terminal :
    ∀ (p : List String) (n : Node) (rest : List String) (ty ty2 : String),
      lookupPath n p = some (Node.leaf ty) → ty ≠ "" → insertGo (p ++ rest) ty2 n = n := by
  intro p
  induction p with
  | nil =>
    intro n rest ty ty2 h hne
    simp [lookupPath] at h
    subst h
    exact insertGo_leaf rest ty2 ty
  | cons k p ih =>
    intro n rest ty ty2 h hne
    cases n with
    | leaf s => simp [lookupPath] at h
    | branch es =>
      rw [lookupPath] at h
      cases hc : lookupKey es k with
      | none => rw [hc] at h; simp at h
      | some c =>
        rw [hc] at h
        cases c with
        | leaf s =>
          cases p with
          | nil =>
            simp [lookupPath] at h
            subst h
            cases rest with
            | nil => simp [insertGo, hc, hne]
            | cons k2 r => simp [insertGo, hc, hne]
          | cons k2 p2 => simp [lookupPath] at h
        | branch cs =>
          cases p with
          | nil => simp [lookupPath] at h
          | cons k2 p2 =>
            have hrec := ih (Node.branch cs) rest ty ty2 h hne
            have hset := setKey_eq_of_lookupKey es k (Node.branch cs) hc
            simp only [List.cons_append] at hrec ⊢
            simp only [insertGo, hc]
            rw [hrec, hset]

theorem lookupPath_insertGo_overwrite :
    ∀ (p : List String) (n : Node) (ty : String) (bs : List (String × Node)),
      p ≠ [] → lookupPath n p = some (Node.branch bs) →
      lookupPath (insertGo p ty n) p = some (Node.leaf ty) := by
  intro p
  induction p with
  | nil => intro n ty bs hp _; exact absurd rfl hp
  | cons k p ih =>
    intro n ty bs _ h
    cases n with
    | leaf s => simp [lookupPath] at h
    | branch es =>
      rw [lookupPath] at h
      cases hc : lookupKey es k with
      | none => rw [hc] at h; simp at h
      | some c =>
        rw [hc] at h
        cases p with
        | nil =>
          simp [lookupPath] at h
          subst h
          simp only [insertGo, hc]
          simp [lookupPath, lookupKey_setKey_self]
        | cons k2 p2 =>
          cases c with
          | leaf s => simp [lookupPath] at h
          | branch cs =>
            have hrec := ih (Node.branch cs) ty bs (by simp) h
            simp only [insertGo, hc]
            simp [lookupPath, lookupKey_setKey_self, hrec]

theorem lookupPath_insertGo_fresh :
    ∀ (p : List String) (ty : String), p ≠ [] → (∀ k ∈ p, isProtoKey k = false) →
      lookupPath (insertGo p ty (Node.branch [])) p = some (Node.leaf ty) := by
  intro p
  induction p with
  | nil => intro ty hp _; exact absurd rfl hp
  | cons k p ih =>
    intro ty _ hproto
    have hk : isProtoKey k = false := hproto k (by simp)
    cases p with
    | nil => simp [insertGo, lookupKey, hk, setKey, lookupPath]
    | cons k2 p2 =>
      have hrec := ih ty (by simp) (fun k3 hk3 => hproto k3 (by simp [hk3]))
      simp [insertGo, lookupKey, hk, setKey, lookupPath, hrec]

theorem parseFields_error_of_mem :
    ∀ (fields : List RawField) (r : RawField) (e : String),
      r ∈ fields → parseField r = Except.error e →
      ∃ e2, parseFields fields = Except.error e2 := by
  intro fields
  induction fields with
  | nil => intro r e hmem _; simp at hmem
  | cons r0 rs ih =>
    intro r e hmem herr
    rcases List.mem_cons.mp hmem with hq | hq
    · subst hq
      exact ⟨e, by simp [parseFields, herr]⟩
    · obtain ⟨e2, he2⟩ := ih r e hq herr
      cases h0 : parseField r0 with
      | error e0 => exact ⟨e0, by simp [parseFields, h0]⟩
      | ok f0 => exact ⟨e2, by simp [parseFields, h0, he2]⟩

theorem parseField_ok_type (r : RawField) (f : FieldDesc) (h : parseField r = Except.ok f) :
    parseOptionalString "type" "any" r.type = Except.ok f.type := by
  unfold parseField at h
  cases h1 : parseRequiredString "name" r.name with
  | error e => rw [h1] at h; exact absurd h (by simp)
  | ok n =>
    rw [h1] at h
    cases h2 : parseOptionalString "type" "any" r.type with
    | error e => rw [h2] at h; exact absurd h (by simp)
    | ok t =>
      rw [h2] at h
      cases h3 : parseOptionalString "unit" "" r.unit with
      | error e => rw [h3] at h; exact absurd h (by simp)
      | ok u =>
        rw [h3] at h
        cases h4 : parseOptionalBool "hidden" false r.hidden with
        | error e => rw [h4] at h; exact absurd h (by simp)
        | ok hb =>
          rw [h4] at h
          cases h5 : parseOptionalString "description" "" r.description with
          | error e => rw [h5] at h; exact absurd h (by simp)
          | ok d =>
            rw [h5] at h
            simp at h
            rw [← h]

theorem renderEntries_fst (defs : List (String × Node)) (ind : Nat) :
    (renderEntries defs ind).map Prod.fst = defs.map Prod.fst := by
  induction defs with
  | nil => simp [renderEntries]
  | cons e es ih =>
    obtain ⟨k, v⟩ := e
    cases v with
    | leaf s => simp [renderEntries, ih]
    | branch bs => simp [renderEntries, ih]

theorem jsOrder_of_no_index (ps : List (String × String))
    (h : ∀ q ∈ ps, isArrayIndexKey q.1 = false) :
    jsOrder ps = ps.map Prod.snd := by
  have h1 : ps.filter (fun e => isArrayIndexKey e.1) = [] := by
    rw [List.filter_eq_nil_iff]
    intro a ha
    simp [h a ha]
  have h2 : ps.filter (fun e => !isArrayIndexKey e.1) = ps := by
    rw [List.filter_eq_self]
    intro a ha
    simp [h a ha]
  simp [jsOrder, h1, h2]

theorem renderEntries_branch_cons (k : String) (bs es : List (String × Node)) (ind : Nat) :
    renderEntries ((k, Node.branch bs) :: es) ind
      = (k, nspaces ind ++ k ++ ": " ++ getStringifiedSchema bs (ind + 2) ++ ";")
          :: renderEntries es ind := by
  simp [renderEntries, getStringifiedSchema]

/-- Claim C1, counterexample: on the input [(name "a", type "string"),
(name "a", type "int")] the final tree stores "string" at path a, not the
later descriptor's "int": the last-write-wins sentence fails, because the
last-segment assignment is skipped when the existing value is a truthy
terminal string. -/
theorem exact_path_collision_keeps_first_type :
    convertSchemaToJSON rawCollision = Except.ok (Node.branch [("a", Node.leaf "string")]) ∧
    terminalAt (Node.branch [("a", Node.leaf "string")]) ["a"] = some "string" ∧
    "string" ≠ "int" := by
  refine ⟨rfl, rfl, by decide⟩

/-- Claim C1, amended: for exact-path collisions the EARLIER descriptor
wins whenever the path currently holds a non-empty terminal type string;
processing the later descriptor leaves the tree unchanged (the code
overwrites at the full path only when that path currently holds a nested
mapping, or the key is absent or holds the empty string). -/
theorem exact_path_collision_first_write_wins (n : Node) (f : FieldDesc) (ty : String)
    (h : lookupPath n (splitName f.name) = some (Node.leaf ty)) (hne : ty ≠ "") :
    insertField n f = n := by
  have := insertGo_noop_of_terminal (splitName f.name) n [] ty (jsTypeOr f.type) h hne
  simpa [insertField] using this

theorem exact_path_collision_first_write_wins_witness :
    lookupPath (Node.branch [("a", Node.leaf "string")]) (splitName "a")
        = some (Node.leaf "string") ∧
    insertField (Node.branch [("a", Node.leaf "string")])
        { name := "a", type := "int", unit := "", hidden := false, description := "" }
      = Node.branch [("a", Node.leaf "string")] :=
  ⟨rfl, exact_path_collision_first_write_wins
    (Node.branch [("a", Node.leaf "string")])
    { name := "a", type := "int", unit := "", hidden := false, description := "" }
    "string" rfl (by decide)⟩

/-- Claim C2: when the full path of a descriptor currently holds a nested
mapping (created by an earlier, longer descriptor such as "a.b"),
inserting the descriptor overwrites that nested mapping unconditionally:
afterwards the path holds the descriptor's terminal type string. -/
theorem exact_path_write_collapses_nested (n : Node) (f : FieldDesc)
    (bs : List (String × Node))
    (h : lookupPath n (splitName f.name) = some (Node.branch bs)) :
    lookupPath (insertField n f) (splitName f.name)
      = some (Node.leaf (jsTypeOr f.type)) := by
  have := lookupPath_insertGo_overwrite (splitName f.name) n (jsTypeOr f.type) bs
    (splitName_ne_nil f.name) h
  simpa [insertField] using this

theorem exact_path_write_collapses_nested_witness :
    lookupPath (Node.branch [("a", Node.branch [("b", Node.leaf "string")])]) (splitName "a")
        = some (Node.branch [("b", Node.leaf "string")]) ∧
    lookupPath
        (insertField (Node.branch [("a", Node.branch [("b", Node.leaf "string")])])
          { name := "a", type := "int", unit := "", hidden := false, description := "" })
        (splitName "a")
      = some (Node.leaf (jsTypeOr "int")) :=
  ⟨rfl, exact_path_write_collapses_nested
    (Node.branch [("a", Node.branch [("b", Node.leaf "string")])])
    { name := "a", type := "int", unit := "", hidden := false, description := "" }
    [("b", Node.leaf "string")] rfl⟩

/-- Claim C10: if a path p holds a non-empty terminal type string, then
inserting any later descriptor whose segment list strictly extends p
returns the tree completely unchanged — the insertion is a no-op on the
whole tree, not merely at the shared path. -/
theorem extension_insert_is_noop (n : Node) (f : FieldDesc) (p rest : List String)
    (ty : String) (hsplit : splitName f.name = p ++ rest) (hr : rest ≠ [])
    (h : lookupPath n p = some (Node.leaf ty)) (hne : ty ≠ "") :
    insertField n f = n := by
  have := insertGo_noop_of_terminal p n rest ty (jsTypeOr f.type) h hne
  simpa [insertField, hsplit] using this

theorem extension_insert_is_noop_witness :
    splitName "a.b.c" = ["a"] ++ ["b", "c"] ∧
    lookupPath (Node.branch [("a", Node.leaf "int"), ("z", Node.branch [("w", Node.leaf "x")])])
        ["a"] = some (Node.leaf "int") ∧
    insertField (Node.branch [("a", Node.leaf "int"), ("z", Node.branch [("w", Node.leaf "x")])])
        { name := "a.b.c", type := "string", unit := "", hidden := false, description := "" }
      = Node.branch [("a", Node.leaf "int"), ("z", Node.branch [("w", Node.leaf "x")])] :=
  ⟨rfl, rfl, extension_insert_is_noop
    (Node.branch [("a", Node.leaf "int"), ("z", Node.branch [("w", Node.leaf "x")])])
    { name := "a.b.c", type := "string", unit := "", hidden := false, description := "" }
    ["a"] ["b", "c"] "int" rfl (by decide) rfl (by decide)⟩

/-- Claim C3: a terminal type string at a path that is a proper prefix of
a later descriptor's path is never overwritten by that descriptor's
intermediate steps, and the flattening operation never fails after
validation: convertSchemaToJSON of a validated batch always returns the
built tree, never an error. -/
theorem scalar_then_deeper_no_error :
    (∀ (fields : List RawField) (fs : List FieldDesc),
      parseFields fields = Except.ok fs →
      convertSchemaToJSON fields = Except.ok (buildDefs fs)) ∧
    (∀ (n : Node) (f : FieldDesc) (p rest : List String) (ty : String),
      splitName f.name = p ++ rest → rest ≠ [] →
      lookupPath n p = some (Node.leaf ty) → ty ≠ "" →
      lookupPath (insertField n f) p = some (Node.leaf ty)) := by
  constructor
  · intro fields fs h
    simp [convertSchemaToJSON, h]
  · intro n f p rest ty hsplit hr h hne
    have := insertGo_noop_of_terminal p n rest ty (jsTypeOr f.type) h hne
    rw [insertField, hsplit, this, h]

theorem scalar_then_deeper_no_error_witness :
    parseFields rawScalarThenDeeper
        = Except.ok
          [{ name := "a", type := "int", unit := "", hidden := false, description := "" },
           { name := "a.b", type := "string", unit := "", hidden := false, description := "" }] ∧
    convertSchemaToJSON rawScalarThenDeeper
        = Except.ok (buildDefs
          [{ name := "a", type := "int", unit := "", hidden := false, description := "" },
           { name := "a.b", type := "string", unit := "", hidden := false, description := "" }]) ∧
    lookupPath
        (insertField (Node.branch [("a", Node.leaf "int")])
          { name := "a.b", type := "string", unit := "", hidden := false, description := "" })
        ["a"]
      = some (Node.leaf "int") :=
  ⟨rfl,
   scalar_then_deeper_no_error.1 rawScalarThenDeeper
     [{ name := "a", type := "int", unit := "", hidden := false, description := "" },
      { name := "a.b", type := "string", unit := "", hidden := false, description := "" }] rfl,
   scalar_then_deeper_no_error.2 (Node.branch [("a", Node.leaf "int")])
     { name := "a.b", type := "string", unit := "", hidden := false, description := "" }
     ["a"] ["b"] "int" rfl (by decide) rfl (by decide)⟩

/-- Claim C5: an input batch containing any descriptor that fails shape
validation (missing name, or a present key of the wrong primitive type,
such as hidden given as a string) makes the whole validation fail — no
partial list of validated fields — and convertSchemaToJSON returns the
validation error and no tree. -/
theorem invalid_descriptor_fails_batch (fields : List RawField) (r : RawField) (e : String)
    (hmem : r ∈ fields) (herr : parseField r = Except.error e) :
    ∃ e2, parseFields fields = Except.error e2 ∧
      convertSchemaToJSON fields = Except.error e2 := by
  obtain ⟨e2, he2⟩ := parseFields_error_of_mem fields r e hmem herr
  exact ⟨e2, he2, by simp [convertSchemaToJSON, he2]⟩

theorem invalid_descriptor_fails_batch_witness :
    rawBadHidden ∈ [rawBadHidden] ∧
    parseField rawBadHidden = Except.error "hidden: Expected boolean" ∧
    (∃ e2, parseFields [rawBadHidden] = Except.error e2 ∧
      convertSchemaToJSON [rawBadHidden] = Except.error e2) :=
  ⟨by simp, rfl,
   invalid_descriptor_fails_batch [rawBadHidden] rawBadHidden
     "hidden: Expected boolean" (by simp) rfl⟩

/-- Claim C7: the single raw descriptor with only name "a" validates to
the fully defaulted descriptor (type "any", unit "", hidden false,
description ""). -/
theorem single_name_fully_defaulted :
    parseFields [⟨some (JSVal.vstr "a"), none, none, none, none⟩]
      = Except.ok
        [{ name := "a", type := "any", unit := "", hidden := false, description := "" }] := rfl

/-- Claim C8, counterexample: the lone descriptor named "toString" with
no type stores NOTHING at its path.  The member read defs["toString"]
yields the truthy inherited Object.prototype.toString function, whose
typeof is "function", so both assignment branches of the last-segment
step are skipped: the final tree is empty and no terminal "any" appears
at the descriptor's path. -/
theorem proto_named_field_stores_nothing :
    parseField (⟨some (JSVal.vstr "toString"), none, none, none, none⟩ : RawField)
        = Except.ok
          { name := "toString", type := "any", unit := "", hidden := false, description := "" } ∧
    convertSchemaToJSON [⟨some (JSVal.vstr "toString"), none, none, none, none⟩]
        = Except.ok (Node.branch []) ∧
    terminalAt (Node.branch []) (splitName "toString") = none ∧
    (none : Option String) ≠ some "any" := by
  refine ⟨rfl, rfl, rfl, by decide⟩

/-- Claim C8, amended: a descriptor whose raw type is absent or the empty
string is flattened with type "any" — alone in a batch, the tree stores
the terminal string "any" at its path (zod defaults an absent type to
"any", and field.type || "any" turns the empty string into "any") —
provided no dot-segment of its name is a prototype-inherited
Object.prototype member name; for such segments the truthy inherited
value makes the code store nothing. -/
theorem absent_or_empty_type_stored_as_any (r : RawField) (f : FieldDesc)
    (hok : parseField r = Except.ok f)
    (hty : r.type = none ∨ r.type = some (JSVal.vstr ""))
    (hname : ∀ k ∈ splitName f.name, isProtoKey k = false) :
    convertSchemaToJSON [r] = Except.ok (buildDefs [f]) ∧
    lookupPath (buildDefs [f]) (splitName f.name) = some (Node.leaf "any") := by
  have htype := parseField_ok_type r f hok
  have hfty : jsTypeOr f.type = "any" := by
    rcases hty with hty | hty <;> rw [hty] at htype <;>
      simp [parseOptionalString] at htype <;> simp [jsTypeOr, ← htype]
  constructor
  · simp [convertSchemaToJSON, parseFields, hok]
  · have hfresh :=
      lookupPath_insertGo_fresh (splitName f.name) "any" (splitName_ne_nil f.name) hname
    simpa [buildDefs, insertField, hfty] using hfresh

theorem absent_or_empty_type_stored_as_any_witness :
    parseField (⟨some (JSVal.vstr "a.b"), none, none, none, none⟩ : RawField)
        = Except.ok { name := "a.b", type := "any", unit := "", hidden := false, description := "" } ∧
    (∀ k ∈ splitName "a.b", isProtoKey k = false) ∧
    convertSchemaToJSON [⟨some (JSVal.vstr "a.b"), none, none, none, none⟩]
        = Except.ok (buildDefs
          [{ name := "a.b", type := "any", unit := "", hidden := false, description := "" }]) ∧
    lookupPath
        (buildDefs [{ name := "a.b", type := "any", unit := "", hidden := false, description := "" }])
        (splitName "a.b")
      = some (Node.leaf "any") :=
  ⟨rfl, by decide,
   (absent_or_empty_type_stored_as_any ⟨some (JSVal.vstr "a.b"), none, none, none, none⟩
     { name := "a.b", type := "any", unit := "", hidden := false, description := "" }
     rfl (Or.inl rfl) (by decide)).1,
   (absent_or_empty_type_stored_as_any ⟨some (JSVal.vstr "a.b"), none, none, none, none⟩
     { name := "a.b", type := "any", unit := "", hidden := false, description := "" }
     rfl (Or.inl rfl) (by decide)).2⟩

/-- Claim C9, counterexample: a descriptor whose name is present but is
the empty string PASSES batch validation (z.string() has no minimum
length), contradicting the claim that it is rejected like a missing
name. -/
theorem empty_name_passes_validation :
    parseFields [⟨some (JSVal.vstr ""), none, none, none, none⟩]
      = Except.ok
        [{ name := "", type := "any", unit := "", hidden := false, description := "" }] := rfl

/-- Claim C9, amended: validation only requires name to be present and to
be a string; the empty string is accepted, while an absent name or a
non-string name fails the whole batch. -/
theorem name_accepts_empty_rejects_missing :
    (parseFields [⟨some (JSVal.vstr ""), none, none, none, none⟩]).isOk = true ∧
    parseFields [⟨none, none, none, none, none⟩] = Except.error "name: Required" ∧
    parseFields [⟨some (JSVal.vbool true), none, none, none, none⟩]
      = Except.error "name: Expected string" :=
  ⟨rfl, rfl, rfl⟩

/-- Claim C4, counterexample: keys that are array indices are NOT
rendered in first-insertion order.  Inserting name "2" then name "1"
produces a tree storing the keys in that creation order, but
Object.entries enumerates array-index keys in ascending numeric order, so
the rendering lists "1" before "2". -/
theorem numeric_keys_render_sorted :
    convertSchemaToJSON rawNumericKeys
      = Except.ok (Node.branch [("2", Node.leaf "int"), ("1", Node.leaf "string")]) ∧
    getStringifiedSchema [("2", Node.leaf "int"), ("1", Node.leaf "string")] 2
      = "\x7b\n  1: string;\n  2: int;\n\x7d" ∧
    "\x7b\n  1: string;\n  2: int;\n\x7d" ≠ "\x7b\n  2: int;\n  1: string;\n\x7d" := by
  refine ⟨rfl, ?_, by decide⟩
  simp [getStringifiedSchema, renderEntries, jsOrder, insertByKey, isArrayIndexKey, keyToNat,
    nspaces]
  decide

/-- Claim C4, amended: keys render in first-insertion order whenever no
direct key of the block is an array index (a canonical decimal integer
below 2^32 - 1); array-index keys are enumerated first in ascending
numeric order instead.  Under the no-array-index hypothesis the rendered
lines are exactly the per-entry lines in the tree's creation order. -/
theorem render_insertion_order_nonnumeric (defs : List (String × Node)) (ind : Nat)
    (h : ∀ kv ∈ defs, isArrayIndexKey kv.1 = false) :
    getStringifiedSchema defs ind
      = "\x7b\n" ++ String.intercalate "\n" ((renderEntries defs ind).map Prod.snd) ++ "\n"
        ++ nspaces (ind - 2) ++ "\x7d" ∧
    (renderEntries defs ind).map Prod.fst = defs.map Prod.fst := by
  have hall : ∀ q ∈ renderEntries defs ind, isArrayIndexKey q.1 = false := by
    intro q hq
    have h1 : q.1 ∈ (renderEntries defs ind).map Prod.fst := List.mem_map_of_mem _ hq
    rw [renderEntries_fst] at h1
    obtain ⟨kv, hkv, hesq⟩ := List.mem_map.mp h1
    rw [← hesq]
    exact h kv hkv
  constructor
  · rw [getStringifiedSchema, jsOrder_of_no_index _ hall]
  · exact renderEntries_fst defs ind

theorem render_insertion_order_nonnumeric_witness :
    (∀ kv ∈ [("b", Node.leaf "int"), ("a", Node.leaf "string")],
      isArrayIndexKey (Prod.fst kv) = false) ∧
    getStringifiedSchema [("b", Node.leaf "int"), ("a", Node.leaf "string")] 2
      = "\x7b\n"
        ++ String.intercalate "\n"
          ((renderEntries [("b", Node.leaf "int"), ("a", Node.leaf "string")] 2).map Prod.snd)
        ++ "\n" ++ nspaces 0 ++ "\x7d" :=
  ⟨by decide,
   (render_insertion_order_nonnumeric [("b", Node.leaf "int"), ("a", Node.leaf "string")] 2
     (by decide)).1⟩

/-- Claim C6: getStringifiedSchema produces the brace-delimited block —
opening brace alone on the first line, one line per enumerated entry, the
closing brace indented two spaces less than the entries; a terminal entry
renders as indent spaces, key, ": ", type, ";"; a nested entry embeds the
recursively rendered sub-block at indent + 2 followed by ";"; and on the
spec §8.2 and §8.3 example inputs the end-to-end pipeline produces
exactly the example texts. -/
theorem render_format_and_examples :
    (∀ (defs : List (String × Node)) (ind : Nat),
      getStringifiedSchema defs ind
        = "\x7b\n" ++ String.intercalate "\n" (jsOrder (renderEntries defs ind)) ++ "\n"
          ++ nspaces (ind - 2) ++ "\x7d") ∧
    (∀ (k s : String) (es : List (String × Node)) (ind : Nat),
      renderEntries ((k, Node.leaf s) :: es) ind
        = (k, nspaces ind ++ k ++ ": " ++ s ++ ";") :: renderEntries es ind) ∧
    (∀ (k : String) (bs es : List (String × Node)) (ind : Nat),
      renderEntries ((k, Node.branch bs) :: es) ind
        = (k, nspaces ind ++ k ++ ": " ++ getStringifiedSchema bs (ind + 2) ++ ";")
            :: renderEntries es ind) ∧
    (convertSchemaToJSON rawSingleLevel
        = Except.ok (Node.branch [("status", Node.leaf "int"), ("message", Node.leaf "string")]) ∧
      getStringifiedSchema [("status", Node.leaf "int"), ("message", Node.leaf "string")] 2
        = "\x7b\n  status: int;\n  message: string;\n\x7d") ∧
    (convertSchemaToJSON rawNested
        = Except.ok (Node.branch
          [("request", Node.branch [("method", Node.leaf "string"), ("duration", Node.leaf "int64")])]) ∧
      getStringifiedSchema
          [("request", Node.branch [("method", Node.leaf "string"), ("duration", Node.leaf "int64")])] 2
        = "\x7b\n  request: \x7b\n    method: string;\n    duration: int64;\n  \x7d;\n\x7d") := by
  refine ⟨fun defs ind => rfl, fun k s es ind => by simp [renderEntries],
    fun k bs es ind => renderEntries_branch_cons k bs es ind, ⟨rfl, ?_⟩, ⟨rfl, ?_⟩⟩
  · simp [getStringifiedSchema, renderEntries, jsOrder, isArrayIndexKey, keyToNat, nspaces]
    decide
  · simp [getStringifiedSchema, renderEntries, jsOrder, isArrayIndexKey, keyToNat, nspaces]
    decide
